import Mathlib

/-!
Shallow embedding of the `state-utils` recording reader/rewriter
(`src/read_state.py` and `src/read_traj.py`).

Bytes are modelled as natural numbers (a well-formed byte is `< 256`),
byte buffers as `List Nat`.  The byte cursor (`nanover.mdanalysis.recordings.Unpacker`),
the magic constant and the error classes live in an external package and are
modelled from the spec; everything else is translated from the two source files.
-/

namespace StateUtils

/-- Little-endian value of a byte list: `leNat [b0, b1, ...] = b0 + 256*b1 + ...`. -/
def leNat : List Nat → Nat
  | [] => 0
  | b :: bs => b + 256 * leNat bs

/-- Little-endian encoding of `n` on `w` bytes, as Python's
`int.to_bytes(w, 'little', signed=False)` produces for `n < 256^w`. -/
def natToLeBytes : Nat → Nat → List Nat
  | 0, _ => []
  | w + 1, n => n % 256 :: natToLeBytes w (n / 256)

/-- Every entry of the list is a byte value. -/
def isBytes (l : List Nat) : Bool := l.all (fun b => decide (b < 256))

/-- Modelled from the spec: the error taxonomy of section 7.
`TruncatedInput` stands for the `IndexError` the external cursor raises;
the other two stand for `recordings.InvalidMagicNumber` and
`recordings.UnsuportedFormatVersion(got, supported)`. -/
inductive ReadError where
  | TruncatedInput : ReadError
  | InvalidMagicNumber : ReadError
  | UnsuportedFormatVersion : Nat → List Nat → ReadError
deriving Repr, DecidableEq

/-- Modelled from the spec: `recordings.MAGIC_NUMBER`, a fixed u64 constant
(the concrete value lives in the external `nanover` package; any fixed
value below 2^64 gives the same theory). -/
def MAGIC_NUMBER : Nat := leNat [78, 65, 78, 79, 86, 69, 82, 33]

/-- Modelled from the spec: the byte cursor
(`nanover.mdanalysis.recordings.Unpacker`): an immutable byte buffer plus a
forward-only read position starting at 0. -/
structure Unpacker where
  data : List Nat
  pos : Nat
deriving Repr, DecidableEq

/-- Modelled from the spec: `read_bytes(n)` consumes exactly `n` bytes and
fails (raises `IndexError`, i.e. `TruncatedInput`) if fewer than `n` remain,
with no side effect beyond advancing the position. -/
def Unpacker.unpack_bytes (u : Unpacker) (n : Nat) : Option (List Nat × Unpacker) :=
  if u.pos + n ≤ u.data.length then
    some ((u.data.drop u.pos).take n, ⟨u.data, u.pos + n⟩)
  else
    none

/-- Modelled from the spec: `read_u64_le()` consumes 8 bytes, little-endian. -/
def Unpacker.unpack_u64 (u : Unpacker) : Option (Nat × Unpacker) :=
  if u.pos + 8 ≤ u.data.length then
    some (leNat ((u.data.drop u.pos).take 8), ⟨u.data, u.pos + 8⟩)
  else
    none

/-- Modelled from the spec: `read_u128_le()` consumes 16 bytes, little-endian. -/
def Unpacker.unpack_u128 (u : Unpacker) : Option (Nat × Unpacker) :=
  if u.pos + 16 ≤ u.data.length then
    some (leNat ((u.data.drop u.pos).take 16), ⟨u.data, u.pos + 16⟩)
  else
    none

/-- The supported format versions, `(2,)` in both source files
(`read_state.py:51`, `read_traj.py:71`). -/
def supported_format_versions : List Nat := [2]

/-- The header record of `read_traj.py:54-60`. -/
structure Header where
  magic_number : Nat
  format_version : Nat
deriving Repr, DecidableEq

/-- `Header.as_bytes` from `read_traj.py:62-67`: the 8-byte little-endian
encodings of the magic number and the format version, concatenated. -/
def Header.as_bytes (h : Header) : List Nat :=
  natToLeBytes 8 h.magic_number ++ natToLeBytes 8 h.format_version

/-- `read_header` from `read_traj.py:70-79`.  The Python function mutates the
unpacker and either returns a `Header` or raises; we return the outcome
together with the final cursor state. -/
def read_header (u : Unpacker) : Except ReadError Header × Unpacker :=
  match u.unpack_u64 with
  | none => (.error .TruncatedInput, u)
  | some (magic_number, u1) =>
    if magic_number ≠ MAGIC_NUMBER then
      (.error .InvalidMagicNumber, u1)
    else
      match u1.unpack_u64 with
      | none => (.error .TruncatedInput, u1)
      | some (format_version, u2) =>
        if format_version ∉ supported_format_versions then
          (.error (.UnsuportedFormatVersion format_version supported_format_versions), u2)
        else
          (.ok ⟨magic_number, format_version⟩, u2)

/-- The inline header-validation block of `iter_state_updates`
(`read_state.py:51-57`), embedded on its own so it can be compared with
`read_header`. -/
def iter_state_updates_header (u : Unpacker) : Except ReadError Unit × Unpacker :=
  match u.unpack_u64 with
  | none => (.error .TruncatedInput, u)
  | some (magic_number, u1) =>
    if magic_number ≠ MAGIC_NUMBER then
      (.error .InvalidMagicNumber, u1)
    else
      match u1.unpack_u64 with
      | none => (.error .TruncatedInput, u1)
      | some (format_version, u2) =>
        if format_version ∉ supported_format_versions then
          (.error (.UnsuportedFormatVersion format_version supported_format_versions), u2)
        else
          (.ok (), u2)

/-- The shared framing loop of `iter_state_updates` (`read_state.py:58-67`)
and `iter_traj_updates` (`read_traj.py:86-97`): repeatedly read
`elapsed` (u128), `record_size` (u64) and `record_size` payload bytes,
decode the payload, and stop cleanly on the first `IndexError`.
`decode` is the external payload codec applied to each raw payload. -/
def iter_records {α : Type} (decode : List Nat → α) (u : Unpacker) : List (Nat × α) :=
  match h1 : u.unpack_u128 with
  | none => []
  | some (elapsed, u1) =>
    match h2 : u1.unpack_u64 with
    | none => []
    | some (record_size, u2) =>
      match h3 : u2.unpack_bytes record_size with
      | none => []
      | some (buffer, u3) => (elapsed, decode buffer) :: iter_records decode u3
termination_by u.data.length - u.pos
decreasing_by
  unfold Unpacker.unpack_u128 at h1
  unfold Unpacker.unpack_u64 at h2
  unfold Unpacker.unpack_bytes at h3
  split at h1 <;> simp_all
  obtain ⟨hle1, rfl⟩ := h1
  obtain ⟨hle2, hv2, rfl⟩ := h2
  obtain ⟨hle3, hb3, rfl⟩ := h3
  simp_all
  omega

/-- `iter_state_updates` from `read_state.py:47-67`: validate the header
inline, then yield `(elapsed, decode payload)` pairs until the input is
exhausted.  The Python generator yields items and may raise; we return the
yielded list together with the terminal error, if any. -/
def iter_state_updates (decode : List Nat → α) (u : Unpacker) :
    List (Nat × α) × Option ReadError :=
  match iter_state_updates_header u with
  | (.error e, _) => ([], some e)
  | (.ok _, u2) => (iter_records decode u2, none)

/-- `iter_traj_updates` from `read_traj.py:82-97`: same framing loop, after
the caller has read the header; each payload decodes to a pair
`(frame_index, frame)`, yielded as `(elapsed, frame_index, frame)`. -/
def iter_traj_updates {β : Type} (decode : List Nat → β) (u : Unpacker)
    (_header : Header) : List (Nat × β) :=
  iter_records decode u

/-- The structured values carried by update mappings (spec section 9): a
value is either an opaque scalar or a nested key/value mapping.  Python
dictionaries are modelled as ordered association lists. -/
inductive Value where
  | scalar : Nat → Value
  | mapping : List (String × Value) → Value

/-- An update mapping: string keys to optional values, `none` being the
delete-this-key tombstone (spec section 3). -/
abbrev UpdateMapping := List (String × Option Value)

/-- Python `dict[k] = v` on an ordered association list: replace the value in
place if the key is present, else append the new binding. -/
def dictInsert {β : Type} (state : List (String × β)) (k : String) (v : β) :
    List (String × β) :=
  if state.any (fun kv => kv.1 == k) then
    state.map (fun kv => if kv.1 == k then (k, v) else kv)
  else
    state ++ [(k, v)]

/-- Python `state.update(upd)`: insert the bindings of `upd` left to right. -/
def dictUpdate {β : Type} (state upd : List (String × β)) : List (String × β) :=
  upd.foldl (fun s kv => dictInsert s kv.1 kv.2) state

/-- Python dict built by a comprehension over the given pairs (later
duplicates of a key overwrite earlier ones). -/
def dictOfList {β : Type} (l : List (String × β)) : List (String × β) :=
  dictUpdate [] l

/-- One step of the aggregation loop (`read_state.py:76-77` and
`read_traj.py:107-112`): `state.update(update)` followed by the
comprehension dropping the keys whose value is `None`. -/
def apply_state_update (state : UpdateMapping) (update : UpdateMapping) : UpdateMapping :=
  (dictUpdate state update).filter (fun kv => kv.2.isSome)

/-- The loop of `iter_full_states` (`read_state.py:74-78`), with the running
`aggregate_state` made explicit. -/
def iter_full_states_from (state : UpdateMapping) :
    List (Nat × UpdateMapping) → List (Nat × UpdateMapping)
  | [] => []
  | (timestamp, update) :: rest =>
      let next := apply_state_update state update
      (timestamp, next) :: iter_full_states_from next rest

/-- `iter_full_states` from `read_state.py:70-78`: fold the updates into a
running state, starting from the empty dict, yielding each snapshot. -/
def iter_full_states (updates : List (Nat × UpdateMapping)) :
    List (Nat × UpdateMapping) :=
  iter_full_states_from [] updates

/-- The loop of `iter_full_trajectories` (`read_traj.py:105-113`): identical
fold, over `(timestamp, frame_index, update)` triples, the frame index being
ignored. -/
def iter_full_trajectories_from (state : UpdateMapping) :
    List (Nat × Nat × UpdateMapping) → List (Nat × UpdateMapping)
  | [] => []
  | (timestamp, _frame_index, update) :: rest =>
      let next := apply_state_update state update
      (timestamp, next) :: iter_full_trajectories_from next rest

/-- `iter_full_trajectories` from `read_traj.py:100-113`. -/
def iter_full_trajectories (updates : List (Nat × Nat × UpdateMapping)) :
    List (Nat × UpdateMapping) :=
  iter_full_trajectories_from [] updates

/-- Lookup of a key in a snapshot, flattening the optional layers: `some v`
when the key is bound to the value `v`, `none` when the key is absent or
bound to a tombstone. -/
def slookup (l : UpdateMapping) (k : String) : Option Value :=
  (l.lookup k).join

/-- One pass of Python `str.replace` over the character list, replacing
non-overlapping occurrences of the (non-empty) pattern left to right; the
fuel argument is instantiated with the length of the string. -/
def replace_go (pat rep : List Char) : Nat → List Char → List Char
  | _, [] => []
  | 0, s => s
  | fuel + 1, c :: rest =>
    if pat.isPrefixOf (c :: rest) then
      rep ++ replace_go pat rep fuel ((c :: rest).drop pat.length)
    else
      c :: replace_go pat rep fuel rest

/-- Python's built-in `str.replace(to_replace, replace_by)`: literal
substring replacement of non-overlapping occurrences, left to right; an
empty pattern inserts the replacement around every character. -/
def py_replace (s to_replace replace_by : String) : String :=
  if to_replace.data = [] then
    ⟨replace_by.data ++ (s.data.map (fun c => c :: replace_by.data)).flatten⟩
  else
    ⟨replace_go to_replace.data replace_by.data s.data.length s.data⟩

mutual

/-- `recursive_replace` from `read_traj.py:137-145`: a non-dict value is
returned unchanged; a dict is rebuilt by a comprehension renaming every key
with `str.replace` and rewriting every value recursively. -/
def recursive_replace (value : Value) (to_replace replace_by : String) : Value :=
  match value with
  | .scalar n => .scalar n
  | .mapping m => .mapping (dictOfList (recursive_replace_items m to_replace replace_by))

/-- The pairs produced by the dict comprehension inside `recursive_replace`
(`read_traj.py:141-145`), in iteration order, before dict construction. -/
def recursive_replace_items (items : List (String × Value)) (to_replace replace_by : String) :
    List (String × Value) :=
  match items with
  | [] => []
  | (key, v) :: rest =>
      (py_replace key to_replace replace_by, recursive_replace v to_replace replace_by)
        :: recursive_replace_items rest to_replace replace_by

end

/-- The dict comprehension of `replace_and_copy_records`
(`read_traj.py:151-155`): rename each top-level key with `str.replace` and
rewrite each value with `recursive_replace` (a `None` value is not a dict,
so it stays `None`). -/
def replace_update (update : UpdateMapping) (to_replace replace_by : String) : UpdateMapping :=
  dictOfList (update.map (fun kv =>
    (py_replace kv.1 to_replace replace_by,
      kv.2.map (fun v => recursive_replace v to_replace replace_by))))

/-- `state_record_as_bytes` from `read_traj.py:159-167`, with the external
protobuf serialisation abstracted as `encode`: the record is the 16-byte
little-endian timestamp, the 8-byte little-endian payload length, then the
payload. -/
def state_record_as_bytes (encode : UpdateMapping → List Nat) (timestamp : Nat)
    (update_dict : UpdateMapping) : List Nat :=
  let update_bytes := encode update_dict
  let length_bytes := natToLeBytes 8 update_bytes.length
  let timestamp_bytes := natToLeBytes 16 timestamp
  timestamp_bytes ++ length_bytes ++ update_bytes

/-- `replace_and_copy_records` from `read_traj.py:148-156`: for each frame of
the source, write the re-framed record of the renamed update.  The writer is
modelled by the concatenation of the written byte strings, in write order.
`decode` is the external codec giving a frame's `(frame_index, update)`. -/
def replace_and_copy_records (decode : List Nat → Nat × UpdateMapping)
    (encode : UpdateMapping → List Nat) (u : Unpacker) (header : Header)
    (to_replace replace_by : String) : List Nat :=
  ((iter_traj_updates decode u header).map (fun x =>
    state_record_as_bytes encode x.1 (replace_update x.2.2 to_replace replace_by))).flatten

/-- `copy_header` from `read_traj.py:131-134`: read the header, write its
byte encoding, return it.  The outcome is returned with the final cursor and
the bytes written (nothing is written when `read_header` raises). -/
def copy_header (u : Unpacker) : Except ReadError Header × Unpacker × List Nat :=
  match read_header u with
  | (.error e, u1) => (.error e, u1, [])
  | (.ok header, u1) => (.ok header, u1, header.as_bytes)

/-- `replace_narupa` from `read_traj.py:170-175`: copy the header, then
rewrite every record replacing `"narupa"` by `"nanover"` in key names.  The
result is the full sequence of bytes written to the destination. -/
def replace_narupa (decode : List Nat → Nat × UpdateMapping)
    (encode : UpdateMapping → List Nat) (u : Unpacker) : Except ReadError (List Nat) :=
  match copy_header u with
  | (.error e, _, _) => .error e
  | (.ok header, u1, written) =>
      .ok (written ++ replace_and_copy_records decode encode u1 header "narupa" "nanover")

/-- The on-disk encoding of one frame (spec section 6): 16-byte little-endian
`elapsed`, 8-byte little-endian payload length, then the payload bytes. -/
def frame_bytes (elapsed : Nat) (payload : List Nat) : List Nat :=
  natToLeBytes 16 elapsed ++ natToLeBytes 8 payload.length ++ payload

/-- The concatenated encodings of a list of frames. -/
def frames_bytes (fs : List (Nat × List Nat)) : List Nat :=
  (fs.map (fun f => frame_bytes f.1 f.2)).flatten

/-- A 16-byte buffer that is a valid header encoding: proper length, byte
values, the magic constant, and a supported version. -/
def valid_header_bytes (hb : List Nat) : Prop :=
  hb.length = 16 ∧ isBytes hb = true ∧ leNat (hb.take 8) = MAGIC_NUMBER ∧
    leNat ((hb.drop 8).take 8) ∈ supported_format_versions

/-- A frame `(elapsed, payload)` whose fields fit the fixed-width encoding. -/
def wf_frame (f : Nat × List Nat) : Prop :=
  f.1 < 2 ^ 128 ∧ f.2.length < 2 ^ 64

/-- A byte tail too short to form one more complete frame: either fewer than
the 24 fixed bytes remain, or the declared payload length points past the end
of the buffer. -/
def short_tail (tail : List Nat) : Prop :=
  tail.length < 24 ∨ (24 ≤ tail.length ∧ tail.length - 24 < leNat ((tail.drop 16).take 8))

/-- Sample 16-byte valid header used by concrete witnesses. -/
def sample_header_bytes : List Nat :=
  [78, 65, 78, 79, 86, 69, 82, 33, 2, 0, 0, 0, 0, 0, 0, 0]

/-- Invariant of the running aggregate state: unique keys, and no tombstone
value retained (every stored value is `some`). -/
def good (s : UpdateMapping) : Prop :=
  (s.map Prod.fst).Nodup ∧ ∀ kv ∈ s, kv.2.isSome = true

/-! ### Byte-level lemmas -/

theorem natToLeBytes_length (w n : Nat) : (natToLeBytes w n).length = w := by
  induction w generalizing n with
  | zero => rfl
  | succ w ih => simp [natToLeBytes, ih]

theorem leNat_natToLeBytes (w n : Nat) (h : n < 256 ^ w) :
    leNat (natToLeBytes w n) = n := by
  induction w generalizing n with
  | zero => simp at h; simp [natToLeBytes, leNat, h]
  | succ w ih =>
      have hlt : n / 256 < 256 ^ w := by
        rw [Nat.div_lt_iff_lt_mul (by norm_num)]
        calc n < 256 ^ (w + 1) := h
        _ = 256 ^ w * 256 := by ring
      simp [natToLeBytes, leNat, ih _ hlt]
      omega

theorem natToLeBytes_leNat (l : List Nat) (h : isBytes l = true) :
    natToLeBytes l.length (leNat l) = l := by
  induction l with
  | nil => rfl
  | cons b bs ih =>
      simp [isBytes] at h
      have hb : b < 256 := h.1
      have hbs := ih (by simp [isBytes]; exact fun x hx => h.2 x hx)
      simp [natToLeBytes, leNat]
      constructor
      · omega
      · have hdiv : (b + 256 * leNat bs) / 256 = leNat bs := by omega
        rw [hdiv]
        exact hbs

theorem leNat_lt (l : List Nat) (h : isBytes l = true) : leNat l < 256 ^ l.length := by
  induction l with
  | nil => simp [leNat]
  | cons b bs ih =>
      simp [isBytes] at h
      have := ih (by simp [isBytes]; exact fun x hx => h.2 x hx)
      simp [leNat, pow_succ]
      have hb : b < 256 := h.1
      nlinarith

/-! ### Unfolding lemmas for the framing loop -/

theorem iter_records_nil_u128 {α : Type} (decode : List Nat → α) (u : Unpacker)
    (h : u.unpack_u128 = none) : iter_records decode u = [] := by
  rw [iter_records.eq_def]
  split
  · rfl
  · rename_i e u1 h1; rw [h] at h1; cases h1

theorem iter_records_nil_u64 {α : Type} (decode : List Nat → α) (u u1 : Unpacker)
    (e : Nat) (h : u.unpack_u128 = some (e, u1)) (h2 : u1.unpack_u64 = none) :
    iter_records decode u = [] := by
  rw [iter_records.eq_def]
  split
  · rfl
  · rename_i e' u1' h1
    rw [h] at h1
    cases h1
    split
    · rfl
    · rename_i n u2 hx; rw [h2] at hx; cases hx

theorem iter_records_nil_bytes {α : Type} (decode : List Nat → α) (u u1 u2 : Unpacker)
    (e n : Nat) (h : u.unpack_u128 = some (e, u1)) (h2 : u1.unpack_u64 = some (n, u2))
    (h3 : u2.unpack_bytes n = none) :
    iter_records decode u = [] := by
  rw [iter_records.eq_def]
  split
  · rfl
  · rename_i e' u1' h1
    rw [h] at h1
    cases h1
    split
    · rfl
    · rename_i n' u2' hx
      rw [h2] at hx
      cases hx
      split
      · rfl
      · rename_i b u3 hy; rw [h3] at hy; cases hy

theorem iter_records_cons {α : Type} (decode : List Nat → α) (u u1 u2 u3 : Unpacker)
    (e n : Nat) (b : List Nat) (h : u.unpack_u128 = some (e, u1))
    (h2 : u1.unpack_u64 = some (n, u2)) (h3 : u2.unpack_bytes n = some (b, u3)) :
    iter_records decode u = (e, decode b) :: iter_records decode u3 := by
  rw [iter_records.eq_def]
  split
  · rename_i h1; rw [h] at h1; cases h1
  · rename_i e' u1' h1
    rw [h] at h1
    cases h1
    split
    · rename_i hx; rw [h2] at hx; cases hx
    · rename_i n' u2' hx
      rw [h2] at hx
      cases hx
      split
      · rename_i hy; rw [h3] at hy; cases hy
      · rename_i b' u3' hy
        rw [h3] at hy
        cases hy
        rfl

theorem unpack_bytes_eq (data : List Nat) (pos n : Nat) :
    (Unpacker.mk data pos).unpack_bytes n =
      if pos + n ≤ data.length then
        some ((data.drop pos).take n, ⟨data, pos + n⟩)
      else none := rfl

theorem unpack_u64_eq (data : List Nat) (pos : Nat) :
    (Unpacker.mk data pos).unpack_u64 =
      if pos + 8 ≤ data.length then
        some (leNat ((data.drop pos).take 8), ⟨data, pos + 8⟩)
      else none := rfl

theorem unpack_u128_eq (data : List Nat) (pos : Nat) :
    (Unpacker.mk data pos).unpack_u128 =
      if pos + 16 ≤ data.length then
        some (leNat ((data.drop pos).take 16), ⟨data, pos + 16⟩)
      else none := rfl

/-- The framing loop only looks at the bytes at or after the read position:
running it from `⟨data, pos⟩` is running it from the suffix `data.drop pos`. -/
theorem iter_records_drop_aux {α : Type} (decode : List Nat → α) :
    ∀ (fuel : Nat) (data : List Nat) (pos : Nat), data.length - pos ≤ fuel →
      iter_records decode ⟨data, pos⟩ = iter_records decode ⟨data.drop pos, 0⟩ := by
  intro fuel
  induction fuel with
  | zero =>
      intro data pos hf
      rw [iter_records_nil_u128 decode _ (by rw [unpack_u128_eq, if_neg (by omega)]),
        iter_records_nil_u128 decode _
          (by rw [unpack_u128_eq, if_neg (by simp only [List.length_drop]; omega)])]
  | succ fuel ih =>
      intro data pos hf
      by_cases h16 : pos + 16 ≤ data.length
      case neg =>
        rw [iter_records_nil_u128 decode _ (by rw [unpack_u128_eq, if_neg (by omega)]),
          iter_records_nil_u128 decode _
            (by rw [unpack_u128_eq, if_neg (by simp only [List.length_drop]; omega)])]
      case pos =>
        have hu1 : (Unpacker.mk data pos).unpack_u128
            = some (leNat ((data.drop pos).take 16), ⟨data, pos + 16⟩) := by
          rw [unpack_u128_eq, if_pos h16]
        have hu1d : (Unpacker.mk (data.drop pos) 0).unpack_u128
            = some (leNat ((data.drop pos).take 16), ⟨data.drop pos, 16⟩) := by
          rw [unpack_u128_eq, if_pos (by simp only [List.length_drop]; omega)]
          norm_num
        have hdd16 : (data.drop pos).drop 16 = data.drop (pos + 16) := by
          rw [List.drop_drop, Nat.add_comm]
        by_cases h8 : pos + 16 + 8 ≤ data.length
        case neg =>
          rw [iter_records_nil_u64 decode _ _ _ hu1
              (by rw [unpack_u64_eq, if_neg (by omega)]),
            iter_records_nil_u64 decode _ _ _ hu1d
              (by rw [unpack_u64_eq, if_neg (by simp only [List.length_drop]; omega)])]
        case pos =>
          have hu2 : (Unpacker.mk data (pos + 16)).unpack_u64
              = some (leNat ((data.drop (pos + 16)).take 8), ⟨data, pos + 16 + 8⟩) := by
            rw [unpack_u64_eq, if_pos h8]
          have hu2d : (Unpacker.mk (data.drop pos) 16).unpack_u64
              = some (leNat (((data.drop pos).drop 16).take 8), ⟨data.drop pos, 16 + 8⟩) := by
            rw [unpack_u64_eq, if_pos (by simp only [List.length_drop]; omega)]
          rw [hdd16] at hu2d
          revert hu2 hu2d
          generalize leNat ((data.drop (pos + 16)).take 8) = n
          intro hu2 hu2d
          have hdd24 : (data.drop pos).drop (16 + 8) = data.drop (pos + 16 + 8) := by
            rw [List.drop_drop]
            try congr 1
            try omega
          by_cases hb : pos + 16 + 8 + n ≤ data.length
          case neg =>
            rw [iter_records_nil_bytes decode _ _ _ _ _ hu1 hu2
                (by rw [unpack_bytes_eq, if_neg (by omega)]),
              iter_records_nil_bytes decode _ _ _ _ _ hu1d hu2d
                (by rw [unpack_bytes_eq, if_neg (by simp only [List.length_drop]; omega)])]
          case pos =>
            have hu3 : (Unpacker.mk data (pos + 16 + 8)).unpack_bytes n
                = some ((data.drop (pos + 16 + 8)).take n, ⟨data, pos + 16 + 8 + n⟩) := by
              rw [unpack_bytes_eq, if_pos hb]
            have hu3d : (Unpacker.mk (data.drop pos) (16 + 8)).unpack_bytes n
                = some (((data.drop pos).drop (16 + 8)).take n, ⟨data.drop pos, 16 + 8 + n⟩) := by
              rw [unpack_bytes_eq, if_pos (by simp only [List.length_drop]; omega)]
            rw [hdd24] at hu3d
            rw [iter_records_cons decode _ _ _ _ _ _ _ hu1 hu2 hu3,
              iter_records_cons decode _ _ _ _ _ _ _ hu1d hu2d hu3d]
            congr 1
            rw [ih data (pos + 16 + 8 + n) (by omega),
              ih (data.drop pos) (16 + 8 + n) (by simp only [List.length_drop]; omega)]
            have hdd : (data.drop pos).drop (16 + 8 + n) = data.drop (pos + 16 + 8 + n) := by
              rw [List.drop_drop]
              try congr 1
              try omega
            rw [hdd]

/-- Cursor form of `iter_records_drop_aux`. -/
theorem iter_records_drop {α : Type} (decode : List Nat → α) (data : List Nat) (pos : Nat) :
    iter_records decode ⟨data, pos⟩ = iter_records decode ⟨data.drop pos, 0⟩ :=
  iter_records_drop_aux decode (data.length - pos) data pos le_rfl

/-- One well-formed frame at the front of the buffer is framed off, and the
loop continues on the remaining bytes. -/
theorem iter_records_step {α : Type} (decode : List Nat → α) (b16 b8 payload rest : List Nat)
    (h16 : b16.length = 16) (h8 : b8.length = 8) (hlen : leNat b8 = payload.length) :
    iter_records decode ⟨b16 ++ (b8 ++ (payload ++ rest)), 0⟩
      = (leNat b16, decode payload) :: iter_records decode ⟨rest, 0⟩ := by
  set B := b16 ++ (b8 ++ (payload ++ rest)) with hB
  have hBlen : B.length = 24 + payload.length + rest.length := by
    simp [hB, h16, h8]
    omega
  have htake16 : B.take 16 = b16 := by
    rw [hB, ← h16, List.take_left]
  have hdrop16 : B.drop 16 = b8 ++ (payload ++ rest) := by
    rw [hB, ← h16, List.drop_left]
  have hdrop24 : B.drop 24 = payload ++ rest := by
    have h2416 : (24 : Nat) = 16 + 8 := by norm_num
    rw [h2416, ← List.drop_drop, hdrop16, ← h8, List.drop_left]
  have hu1 : (Unpacker.mk B 0).unpack_u128 = some (leNat b16, ⟨B, 16⟩) := by
    rw [unpack_u128_eq, if_pos (by omega)]
    rw [List.drop_zero, htake16]
  have hu2 : (Unpacker.mk B 16).unpack_u64 = some (payload.length, ⟨B, 24⟩) := by
    rw [unpack_u64_eq, if_pos (by omega), hdrop16, ← h8, List.take_left, h8, hlen]
  have hu3 : (Unpacker.mk B 24).unpack_bytes payload.length
      = some (payload, ⟨B, 24 + payload.length⟩) := by
    rw [unpack_bytes_eq, if_pos (by omega), hdrop24, List.take_left]
  rw [iter_records_cons decode _ _ _ _ _ _ _ hu1 hu2 hu3]
  congr 1
  rw [iter_records_drop]
  have hdroprest : B.drop (24 + payload.length) = rest := by
    rw [← List.drop_drop, hdrop24, List.drop_left]
  rw [hdroprest]

/-- `iter_records_step` for the canonical encoding of a well-formed frame. -/
theorem iter_records_frame {α : Type} (decode : List Nat → α) (elapsed : Nat)
    (payload rest : List Nat) (he : elapsed < 2 ^ 128) (hl : payload.length < 2 ^ 64) :
    iter_records decode ⟨frame_bytes elapsed payload ++ rest, 0⟩
      = (elapsed, decode payload) :: iter_records decode ⟨rest, 0⟩ := by
  have hassoc : frame_bytes elapsed payload ++ rest
      = natToLeBytes 16 elapsed ++ (natToLeBytes 8 payload.length ++ (payload ++ rest)) := by
    simp [frame_bytes]
  rw [hassoc,
    iter_records_step decode _ _ _ _ (natToLeBytes_length 16 elapsed)
      (natToLeBytes_length 8 payload.length)
      (leNat_natToLeBytes 8 payload.length (by norm_num at hl ⊢; omega)),
    leNat_natToLeBytes 16 elapsed (by norm_num at he ⊢; omega)]

/-- A short tail produces no frame: the loop stops on the first failing read. -/
theorem iter_records_short_tail {α : Type} (decode : List Nat → α) (tail : List Nat)
    (h : short_tail tail) : iter_records decode ⟨tail, 0⟩ = [] := by
  rcases h with h | ⟨h24, hbig⟩
  · by_cases h16 : 0 + 16 ≤ tail.length
    · refine iter_records_nil_u64 decode _ ⟨tail, 0 + 16⟩ _
        (by rw [unpack_u128_eq, if_pos h16]) ?_
      rw [unpack_u64_eq, if_neg (by omega)]
    · exact iter_records_nil_u128 decode _ (by rw [unpack_u128_eq, if_neg h16])
  · refine iter_records_nil_bytes decode _ ⟨tail, 0 + 16⟩ ⟨tail, 0 + 16 + 8⟩
      (leNat ((tail.drop 0).take 16)) (leNat (((tail.drop (0 + 16))).take 8))
      (by rw [unpack_u128_eq, if_pos (by omega)]) (by rw [unpack_u64_eq, if_pos (by omega)]) ?_
    rw [unpack_bytes_eq, if_neg ?_]
    intro hcontra
    have : (0 : Nat) + 16 = 16 := by norm_num
    rw [this] at hcontra
    omega

/-- Framing a buffer made of well-formed frames followed by a short tail
yields exactly the frames, in order, decoded. -/
theorem iter_records_frames {α : Type} (decode : List Nat → α) (fs : List (Nat × List Nat))
    (tail : List Nat) (hwf : ∀ f ∈ fs, wf_frame f) (ht : short_tail tail) :
    iter_records decode ⟨frames_bytes fs ++ tail, 0⟩
      = fs.map (fun f => (f.1, decode f.2)) := by
  induction fs with
  | nil =>
      simp only [frames_bytes, List.map_nil, List.flatten_nil, List.nil_append]
      exact iter_records_short_tail decode tail ht
  | cons f fs ih =>
      have hwff := hwf f (by simp)
      have hfb : frames_bytes (f :: fs) ++ tail
          = frame_bytes f.1 f.2 ++ (frames_bytes fs ++ tail) := by
        simp [frames_bytes]
      rw [hfb, iter_records_frame decode f.1 f.2 _ hwff.1 hwff.2,
        ih (fun g hg => hwf g (by simp [hg]))]
      rfl

/-- Reading the header off a buffer whose first 16 bytes are a valid header
succeeds, returns the two decoded fields, and leaves the cursor at 16. -/
theorem read_header_valid (hb rest : List Nat) (h : valid_header_bytes hb) :
    read_header ⟨hb ++ rest, 0⟩
      = (.ok ⟨MAGIC_NUMBER, leNat ((hb.drop 8).take 8)⟩, ⟨hb ++ rest, 16⟩) := by
  obtain ⟨hlen, hbytes, hmagic, hver⟩ := h
  have htake8 : (hb ++ rest).take 8 = hb.take 8 :=
    List.take_append_of_le_length (by omega)
  have hdrop8 : (hb ++ rest).drop 8 = hb.drop 8 ++ rest :=
    List.drop_append_of_le_length (by omega)
  have hu1 : (Unpacker.mk (hb ++ rest) 0).unpack_u64
      = some (MAGIC_NUMBER, ⟨hb ++ rest, 8⟩) := by
    rw [unpack_u64_eq, if_pos (by simp; omega)]
    rw [List.drop_zero, htake8, hmagic]
  have hu2 : (Unpacker.mk (hb ++ rest) 8).unpack_u64
      = some (leNat ((hb.drop 8).take 8), ⟨hb ++ rest, 16⟩) := by
    rw [unpack_u64_eq, if_pos (by simp; omega), hdrop8]
    rw [List.take_append_of_le_length (by simp [hlen])]
  simp [read_header, hu1, hu2, hver]

theorem isBytes_take (l : List Nat) (n : Nat) (h : isBytes l = true) :
    isBytes (l.take n) = true := by
  simp only [isBytes, List.all_eq_true] at h ⊢
  exact fun x hx => h x (List.mem_of_mem_take hx)

theorem isBytes_drop (l : List Nat) (n : Nat) (h : isBytes l = true) :
    isBytes (l.drop n) = true := by
  simp only [isBytes, List.all_eq_true] at h ⊢
  exact fun x hx => h x (List.mem_of_mem_drop hx)

/-- The inline header block of `read_state.py` computes exactly what
`read_traj.py`'s `read_header` computes: same outcome, same error values,
same final cursor. -/
theorem state_header_eq_read_header (u : Unpacker) :
    iter_state_updates_header u = ((read_header u).1.map (fun _ => ()), (read_header u).2) := by
  unfold iter_state_updates_header read_header
  cases h1 : u.unpack_u64 with
  | none => simp [Except.map]
  | some p =>
      obtain ⟨m, u1⟩ := p
      cases h2 : u1.unpack_u64 with
      | none =>
          by_cases hm : m ≠ MAGIC_NUMBER <;> simp [hm, h2, Except.map]
      | some q =>
          obtain ⟨v, u2⟩ := q
          by_cases hm : m ≠ MAGIC_NUMBER
          · simp [hm, h2, Except.map]
          · by_cases hv : v ∉ supported_format_versions <;> simp [hm, h2, hv, Except.map]

/-- A `Header` holding the two fields decoded from a valid 16-byte header
re-encodes, via `as_bytes`, to exactly those 16 bytes. -/
theorem header_as_bytes_valid (hb : List Nat) (h : valid_header_bytes hb) :
    (Header.mk MAGIC_NUMBER (leNat ((hb.drop 8).take 8))).as_bytes = hb := by
  obtain ⟨hlen, hbytes, hmagic, hver⟩ := h
  unfold Header.as_bytes
  have htk : (hb.take 8).length = 8 := by
    simp [hlen]
  have hdk : (hb.drop 8).length = 8 := by
    simp [hlen]
  have h1 : natToLeBytes 8 MAGIC_NUMBER = hb.take 8 := by
    have hr := natToLeBytes_leNat (hb.take 8) (isBytes_take _ _ hbytes)
    rw [htk, hmagic] at hr
    exact hr
  have htt : (hb.drop 8).take 8 = hb.drop 8 := by
    have hr := List.take_length (hb.drop 8)
    rw [hdk] at hr
    exact hr
  have h2 : natToLeBytes 8 (leNat ((hb.drop 8).take 8)) = hb.drop 8 := by
    rw [htt]
    have hr := natToLeBytes_leNat (hb.drop 8) (isBytes_drop _ _ hbytes)
    rw [hdk] at hr
    exact hr
  rw [h1, h2, List.take_append_drop]

/-- C4: for every byte buffer whose first 16 bytes form a valid header
(correct magic number, supported version), `read_header` followed by
`as_bytes()` reproduces the original 16 input bytes exactly. -/
theorem c4_read_header_as_bytes_roundtrip (buffer : List Nat)
    (h : valid_header_bytes (buffer.take 16)) :
    (read_header ⟨buffer, 0⟩).1.map Header.as_bytes = .ok (buffer.take 16) := by
  have hsplit : buffer = buffer.take 16 ++ buffer.drop 16 := (List.take_append_drop 16 buffer).symm
  have hrh : read_header ⟨buffer, 0⟩
      = (.ok ⟨MAGIC_NUMBER, leNat (((buffer.take 16).drop 8).take 8)⟩,
          ⟨buffer.take 16 ++ buffer.drop 16, 16⟩) := by
    conv_lhs => rw [hsplit]
    exact read_header_valid _ _ h
  rw [hrh]
  simp only [Except.map]
  congr 1
  exact header_as_bytes_valid (buffer.take 16) h

/-- Witness instantiating `c4_read_header_as_bytes_roundtrip` at a concrete
valid header. -/
theorem c4_read_header_as_bytes_roundtrip_witness :
    (read_header ⟨sample_header_bytes, 0⟩).1.map Header.as_bytes
      = .ok (sample_header_bytes.take 16) :=
  c4_read_header_as_bytes_roundtrip sample_header_bytes
    (by unfold valid_header_bytes; refine ⟨by decide, by decide, by decide, by decide⟩)

/-- C5: a buffer whose first u64 is not the magic constant makes
`read_header` fail with `InvalidMagicNumber` with the cursor stopped at
offset 8 (before the version read), and makes `iter_state_updates` raise the
same error with no frame yielded. -/
theorem c5_invalid_magic_number (decode : List Nat → UpdateMapping) (buffer : List Nat)
    (h8 : 8 ≤ buffer.length) (hm : leNat (buffer.take 8) ≠ MAGIC_NUMBER) :
    read_header ⟨buffer, 0⟩ = (.error .InvalidMagicNumber, ⟨buffer, 8⟩)
      ∧ iter_state_updates decode ⟨buffer, 0⟩ = ([], some .InvalidMagicNumber) := by
  have hu1 : (Unpacker.mk buffer 0).unpack_u64
      = some (leNat (buffer.take 8), ⟨buffer, 8⟩) := by
    rw [unpack_u64_eq, if_pos (by omega)]
    rw [List.drop_zero]
  constructor
  · simp [read_header, hu1, hm]
  · simp [iter_state_updates, iter_state_updates_header, hu1, hm]

/-- Witness instantiating `c5_invalid_magic_number` on an all-zero buffer. -/
theorem c5_invalid_magic_number_witness :
    read_header ⟨[0, 0, 0, 0, 0, 0, 0, 0], 0⟩
        = (.error .InvalidMagicNumber, ⟨[0, 0, 0, 0, 0, 0, 0, 0], 8⟩)
      ∧ iter_state_updates (fun _ => ([] : UpdateMapping)) ⟨[0, 0, 0, 0, 0, 0, 0, 0], 0⟩
        = ([], some .InvalidMagicNumber) :=
  c5_invalid_magic_number _ [0, 0, 0, 0, 0, 0, 0, 0] (by decide) (by decide)

/-- C6: a buffer with the right magic number but an unsupported version
makes `read_header` fail with `UnsupportedFormatVersion` carrying the
offending version and the supported set, and makes `iter_state_updates`
raise the same error with no frame yielded. -/
theorem c6_unsupported_format_version (decode : List Nat → UpdateMapping) (buffer : List Nat)
    (h16 : 16 ≤ buffer.length) (hm : leNat (buffer.take 8) = MAGIC_NUMBER)
    (hv : leNat ((buffer.drop 8).take 8) ∉ supported_format_versions) :
    read_header ⟨buffer, 0⟩
        = (.error (.UnsuportedFormatVersion (leNat ((buffer.drop 8).take 8))
            supported_format_versions), ⟨buffer, 16⟩)
      ∧ iter_state_updates decode ⟨buffer, 0⟩
        = ([], some (.UnsuportedFormatVersion (leNat ((buffer.drop 8).take 8))
            supported_format_versions)) := by
  have hu1 : (Unpacker.mk buffer 0).unpack_u64
      = some (leNat (buffer.take 8), ⟨buffer, 8⟩) := by
    rw [unpack_u64_eq, if_pos (by omega)]
    rw [List.drop_zero]
  have hu2 : (Unpacker.mk buffer 8).unpack_u64
      = some (leNat ((buffer.drop 8).take 8), ⟨buffer, 16⟩) := by
    rw [unpack_u64_eq, if_pos (by omega)]
  constructor
  · simp [read_header, hu1, hu2, hm, hv]
  · simp [iter_state_updates, iter_state_updates_header, hu1, hu2, hm, hv]

/-- Witness instantiating `c6_unsupported_format_version` on a buffer with
the right magic and version 3. -/
theorem c6_unsupported_format_version_witness :
    read_header ⟨[78, 65, 78, 79, 86, 69, 82, 33, 3, 0, 0, 0, 0, 0, 0, 0], 0⟩
        = (.error (.UnsuportedFormatVersion 3 supported_format_versions),
            ⟨[78, 65, 78, 79, 86, 69, 82, 33, 3, 0, 0, 0, 0, 0, 0, 0], 16⟩)
      ∧ iter_state_updates (fun _ => ([] : UpdateMapping))
          ⟨[78, 65, 78, 79, 86, 69, 82, 33, 3, 0, 0, 0, 0, 0, 0, 0], 0⟩
        = ([], some (.UnsuportedFormatVersion 3 supported_format_versions)) := by
  have h := c6_unsupported_format_version (fun _ => ([] : UpdateMapping))
    [78, 65, 78, 79, 86, 69, 82, 33, 3, 0, 0, 0, 0, 0, 0, 0] (by decide) (by decide) (by decide)
  simpa using h

/-- C2: a buffer made of a valid header, well-formed frames and any tail too
short to form one more complete frame (including a declared payload length
past the end of the buffer) yields exactly the well-formed frames, in file
order, and terminates cleanly (no error). -/
theorem c2_framer_yields_frames_then_stops {α : Type} (decode : List Nat → α)
    (hb tail : List Nat) (fs : List (Nat × List Nat))
    (hh : valid_header_bytes hb) (hwf : ∀ f ∈ fs, wf_frame f) (ht : short_tail tail) :
    iter_state_updates decode ⟨hb ++ (frames_bytes fs ++ tail), 0⟩
      = (fs.map (fun f => (f.1, decode f.2)), none) := by
  have hrh := read_header_valid hb (frames_bytes fs ++ tail) hh
  unfold iter_state_updates
  rw [state_header_eq_read_header, hrh]
  simp only [Except.map]
  rw [iter_records_drop]
  have hdrop : (hb ++ (frames_bytes fs ++ tail)).drop 16 = frames_bytes fs ++ tail := by
    rw [← hh.1, List.drop_left]
  rw [hdrop, iter_records_frames decode fs tail hwf ht]

/-- Witness instantiating `c2_framer_yields_frames_then_stops` twice: once
with one well-formed frame plus a 2-byte garbage tail, once with no frame
and a tail holding an elapsed and a length field that declares more payload
bytes than remain (the truncated-file case, yielding zero frames). -/
theorem c2_framer_yields_frames_then_stops_witness :
    iter_state_updates (fun l => l) ⟨sample_header_bytes ++ (frames_bytes [(5, [1, 2, 3])] ++ [9, 9]), 0⟩
        = ([(5, [1, 2, 3])], none)
      ∧ iter_state_updates (fun l => l)
          ⟨sample_header_bytes ++ (frames_bytes []
            ++ (natToLeBytes 16 7 ++ (natToLeBytes 8 5 ++ [1, 2]))), 0⟩
        = ([], none) := by
  constructor
  · exact c2_framer_yields_frames_then_stops (fun l => l) sample_header_bytes [9, 9]
      [(5, [1, 2, 3])]
      (by unfold valid_header_bytes; refine ⟨by decide, by decide, by decide, by decide⟩)
      (by intro f hf; simp at hf; rw [hf]; unfold wf_frame; exact ⟨by norm_num, by norm_num⟩)
      (by unfold short_tail; left; decide)
  · exact c2_framer_yields_frames_then_stops (fun l => l) sample_header_bytes
      (natToLeBytes 16 7 ++ (natToLeBytes 8 5 ++ [1, 2])) []
      (by unfold valid_header_bytes; refine ⟨by decide, by decide, by decide, by decide⟩)
      (by intro f hf; simp at hf)
      (by unfold short_tail; right; refine ⟨by decide, by decide⟩)

/-- C10: the inline header validation at the start of `iter_state_updates`
(`read_state.py`) and `read_header` (`read_traj.py`) behave identically:
they accept exactly the same buffers, raise the same errors with the same
arguments, leave the cursor at the same position, and on success
`iter_state_updates` continues framing from `read_header`'s final cursor. -/
theorem c10_inline_header_refines_read_header (u : Unpacker)
    (decode : List Nat → UpdateMapping) :
    iter_state_updates_header u = ((read_header u).1.map (fun _ => ()), (read_header u).2)
      ∧ iter_state_updates decode u
        = (match (read_header u).1 with
            | .error e => ([], some e)
            | .ok _ => (iter_records decode (read_header u).2, none)) := by
  refine ⟨state_header_eq_read_header u, ?_⟩
  unfold iter_state_updates
  rw [state_header_eq_read_header]
  rcases hr : (read_header u).1 with e | h
  · simp [Except.map]
  · simp [Except.map]

/-! ### Dictionary and aggregation lemmas -/

theorem beq_false_of_ne {a b : String} (h : a ≠ b) : (a == b) = false := by
  simpa using h

theorem lookup_cons_self {β : Type} (a : String) (b : β) (rest : List (String × β)) :
    List.lookup a ((a, b) :: rest) = some b := by
  simp [List.lookup]

theorem lookup_cons_ne {β : Type} (k a : String) (b : β) (rest : List (String × β))
    (h : k ≠ a) : List.lookup k ((a, b) :: rest) = List.lookup k rest := by
  have hb : (k == a) = false := beq_false_of_ne h
  simp [List.lookup, hb]

theorem any_key_iff {β : Type} (s : List (String × β)) (k : String) :
    s.any (fun kv => kv.1 == k) = true ↔ k ∈ s.map Prod.fst := by
  simp only [List.any_eq_true, List.mem_map, beq_iff_eq]

theorem lookup_not_mem {β : Type} (k : String) (s : List (String × β))
    (h : k ∉ s.map Prod.fst) : List.lookup k s = none := by
  induction s with
  | nil => rfl
  | cons kv rest ih =>
      obtain ⟨a, b⟩ := kv
      simp only [List.map_cons, List.mem_cons, not_or] at h
      rw [lookup_cons_ne k a b rest h.1]
      exact ih h.2

theorem lookup_mem_of_eq_some {β : Type} (k : String) (s : List (String × β)) (w : β)
    (h : List.lookup k s = some w) : (k, w) ∈ s := by
  induction s with
  | nil => cases h
  | cons kv rest ih =>
      obtain ⟨a, b⟩ := kv
      by_cases hk : k = a
      · subst hk
        rw [lookup_cons_self] at h
        cases h
        exact List.mem_cons_self _ _
      · rw [lookup_cons_ne _ _ _ _ hk] at h
        exact List.mem_cons_of_mem _ (ih h)

theorem lookup_map_replace_self {β : Type} (k : String) (v : β) (s : List (String × β))
    (h : s.any (fun kv => kv.1 == k) = true) :
    List.lookup k (s.map (fun kv => if kv.1 == k then (k, v) else kv)) = some v := by
  induction s with
  | nil => simp at h
  | cons kv rest ih =>
      obtain ⟨a, b⟩ := kv
      rw [List.map_cons]
      by_cases ha : a = k
      · subst ha
        rw [if_pos (by simp)]
        exact lookup_cons_self a v _
      · have hcond : ((a, b).1 == k) = false := beq_false_of_ne ha
        rw [if_neg (by simp [hcond])]
        have h2 : rest.any (fun kv => kv.1 == k) = true := by
          rw [List.any_cons] at h
          simpa [hcond] using h
        rw [lookup_cons_ne k a b _ (fun hh => ha hh.symm)]
        exact ih h2

theorem lookup_map_replace_other {β : Type} (k k2 : String) (v : β) (s : List (String × β))
    (hne : k2 ≠ k) :
    List.lookup k2 (s.map (fun kv => if kv.1 == k then (k, v) else kv))
      = List.lookup k2 s := by
  induction s with
  | nil => rfl
  | cons kv rest ih =>
      obtain ⟨a, b⟩ := kv
      rw [List.map_cons]
      by_cases ha : a = k
      · subst ha
        rw [if_pos (by simp), lookup_cons_ne k2 a v _ hne, lookup_cons_ne k2 a b _ hne]
        exact ih
      · rw [if_neg (by simp [beq_false_of_ne ha])]
        by_cases hk2 : k2 = a
        · subst hk2
          rw [lookup_cons_self, lookup_cons_self]
        · rw [lookup_cons_ne _ _ _ _ hk2, lookup_cons_ne _ _ _ _ hk2]
          exact ih

theorem lookup_dictInsert {β : Type} (s : List (String × β)) (k : String) (v : β)
    (k2 : String) :
    List.lookup k2 (dictInsert s k v) = if k2 = k then some v else List.lookup k2 s := by
  unfold dictInsert
  by_cases hpres : s.any (fun kv => kv.1 == k) = true
  · rw [if_pos hpres]
    by_cases hk : k2 = k
    · subst hk
      rw [if_pos rfl]
      exact lookup_map_replace_self _ v s hpres
    · rw [if_neg hk]
      exact lookup_map_replace_other k k2 v s hk
  · rw [if_neg hpres]
    have habs : k ∉ s.map Prod.fst := fun hmem => hpres ((any_key_iff s k).2 hmem)
    by_cases hk : k2 = k
    · subst hk
      rw [if_pos rfl, List.lookup_append, lookup_not_mem k2 s habs, lookup_cons_self]
      rfl
    · rw [if_neg hk, List.lookup_append]
      have h1 : List.lookup k2 [(k, v)] = none := by
        rw [lookup_cons_ne _ _ _ _ hk]
        rfl
      rw [h1, Option.or_none]

theorem keys_dictInsert {β : Type} (s : List (String × β)) (k : String) (v : β) :
    (dictInsert s k v).map Prod.fst
      = if s.any (fun kv => kv.1 == k) then s.map Prod.fst else s.map Prod.fst ++ [k] := by
  unfold dictInsert
  by_cases hpres : s.any (fun kv => kv.1 == k) = true
  · rw [if_pos hpres, if_pos hpres, List.map_map]
    apply List.map_congr_left
    intro kv _
    by_cases h1 : kv.1 = k
    · simp [Function.comp, if_pos, h1]
    · simp [Function.comp, beq_false_of_ne h1]
  · rw [if_neg hpres, if_neg hpres]
    simp

theorem keys_nodup_dictInsert {β : Type} (s : List (String × β)) (k : String) (v : β)
    (h : (s.map Prod.fst).Nodup) : ((dictInsert s k v).map Prod.fst).Nodup := by
  rw [keys_dictInsert]
  by_cases hpres : s.any (fun kv => kv.1 == k) = true
  · rw [if_pos hpres]
    exact h
  · rw [if_neg hpres]
    have habs : k ∉ s.map Prod.fst := fun hmem => hpres ((any_key_iff s k).2 hmem)
    simp [List.nodup_append, h, habs]

theorem keys_nodup_dictUpdate {β : Type} (s upd : List (String × β))
    (h : (s.map Prod.fst).Nodup) : ((dictUpdate s upd).map Prod.fst).Nodup := by
  induction upd generalizing s with
  | nil => exact h
  | cons kv rest ih =>
      have hstep : dictUpdate s (kv :: rest) = dictUpdate (dictInsert s kv.1 kv.2) rest := by
        simp [dictUpdate]
      rw [hstep]
      exact ih _ (keys_nodup_dictInsert _ _ _ h)

theorem lookup_dictUpdate {β : Type} (s upd : List (String × β)) (k : String)
    (hnd : (upd.map Prod.fst).Nodup) :
    List.lookup k (dictUpdate s upd)
      = match List.lookup k upd with
        | some v => some v
        | none => List.lookup k s := by
  induction upd generalizing s with
  | nil => simp [dictUpdate]
  | cons kv rest ih =>
      obtain ⟨a, b⟩ := kv
      simp only [List.map_cons, List.nodup_cons] at hnd
      have hstep : dictUpdate s ((a, b) :: rest) = dictUpdate (dictInsert s a b) rest := by
        simp [dictUpdate]
      rw [hstep, ih _ hnd.2]
      by_cases hk : k = a
      · subst hk
        rw [lookup_not_mem k rest hnd.1, lookup_cons_self, lookup_dictInsert, if_pos rfl]
      · rw [lookup_dictInsert, if_neg hk, lookup_cons_ne _ _ _ _ hk]

theorem lookup_filter_isSome (s : UpdateMapping) (k : String)
    (hnd : (s.map Prod.fst).Nodup) :
    List.lookup k (s.filter (fun kv => kv.2.isSome))
      = (List.lookup k s).bind (fun v => if v.isSome then some v else none) := by
  induction s with
  | nil => rfl
  | cons kv rest ih =>
      obtain ⟨a, b⟩ := kv
      simp only [List.map_cons, List.nodup_cons] at hnd
      by_cases hk : k = a
      · subst hk
        by_cases hsome : b.isSome = true
        · rw [List.filter_cons, if_pos hsome, lookup_cons_self, lookup_cons_self]
          simp [hsome]
        · rw [List.filter_cons, if_neg (by simp [hsome]), lookup_cons_self]
          have habs2 : k ∉ (rest.filter (fun kv => kv.2.isSome)).map Prod.fst := by
            intro hmem
            apply hnd.1
            obtain ⟨kv2, hkv2, hfst⟩ := List.mem_map.1 hmem
            exact List.mem_map.2 ⟨kv2, List.mem_of_mem_filter hkv2, hfst⟩
          rw [lookup_not_mem _ _ habs2]
          simp [hsome]
      · rw [List.filter_cons]
        by_cases hsome : b.isSome = true
        · rw [if_pos hsome, lookup_cons_ne _ _ _ _ hk, lookup_cons_ne _ _ _ _ hk]
          exact ih hnd.2
        · rw [if_neg (by simp [hsome]), lookup_cons_ne _ _ _ _ hk]
          exact ih hnd.2

/-- The lookup-level law of one aggregation step (`read_state.py:76-77`):
a key set by the update gets its value, a key tombstoned by the update
disappears, every other key keeps its previous value. -/
theorem slookup_apply_state_update (state update : UpdateMapping) (k : String)
    (hg : good state) (hnd : (update.map Prod.fst).Nodup) :
    slookup (apply_state_update state update) k
      = match List.lookup k update with
        | some v => v
        | none => slookup state k := by
  unfold apply_state_update slookup
  rw [lookup_filter_isSome _ _ (keys_nodup_dictUpdate _ _ hg.1),
    lookup_dictUpdate _ _ _ hnd]
  cases hu : List.lookup k update with
  | some v =>
      cases v with
      | some w => simp
      | none => simp
  | none =>
      cases hs : List.lookup k state with
      | none => simp
      | some w =>
          have hw : w.isSome = true := hg.2 (k, w) (lookup_mem_of_eq_some k state w hs)
          simp [hw]

theorem good_apply_state_update (state update : UpdateMapping) (hg : good state) :
    good (apply_state_update state update) := by
  constructor
  · have h1 := keys_nodup_dictUpdate state update hg.1
    have hsub : List.Sublist
        (((dictUpdate state update).filter (fun kv => kv.2.isSome)).map Prod.fst)
        ((dictUpdate state update).map Prod.fst) :=
      (List.filter_sublist _).map Prod.fst
    exact h1.sublist hsub
  · intro kv hkv
    unfold apply_state_update at hkv
    have h2 := List.of_mem_filter hkv
    simpa using h2

theorem iter_full_states_from_map_fst (state : UpdateMapping)
    (updates : List (Nat × UpdateMapping)) :
    (iter_full_states_from state updates).map Prod.fst = updates.map Prod.fst := by
  induction updates generalizing state with
  | nil => rfl
  | cons u rest ih =>
      obtain ⟨t, upd⟩ := u
      simp [iter_full_states_from, ih]

theorem iter_full_trajectories_from_eq (state : UpdateMapping)
    (updates : List (Nat × Nat × UpdateMapping)) :
    iter_full_trajectories_from state updates
      = iter_full_states_from state (updates.map (fun x => (x.1, x.2.2))) := by
  induction updates generalizing state with
  | nil => rfl
  | cons u rest ih =>
      obtain ⟨t, fi, upd⟩ := u
      simp [iter_full_trajectories_from, iter_full_states_from, ih]

theorem iter_full_states_from_lookup (updates : List (Nat × UpdateMapping)) :
    ∀ (state : UpdateMapping) (i : Nat), good state →
      (∀ u ∈ updates, ((u.2.map Prod.fst).Nodup)) → i < updates.length →
      ∀ k, slookup ((iter_full_states_from state updates).getD i (0, [])).2 k
        = match List.lookup k ((updates.getD i (0, [])).2) with
          | some v => v
          | none =>
              slookup (if i = 0 then state
                else ((iter_full_states_from state updates).getD (i - 1) (0, [])).2) k := by
  induction updates with
  | nil =>
      intro state i _ _ hi
      simp at hi
  | cons u rest ih =>
      intro state i hg hnd hi k
      obtain ⟨t, upd⟩ := u
      match i with
      | 0 =>
          simp only [iter_full_states_from, List.getD_cons_zero, if_pos rfl]
          exact slookup_apply_state_update state upd k hg
            (hnd (t, upd) (List.mem_cons_self _ _))
      | Nat.succ i =>
          have hg2 := good_apply_state_update state upd hg
          have hrec := ih (apply_state_update state upd) i hg2
            (fun u hu => hnd u (by simp [hu]))
            (by simp at hi; omega) k
          simp only [iter_full_states_from, List.getD_cons_succ]
          have hsub : i + 1 - 1 = i := rfl
          cases i with
          | zero =>
              simpa [iter_full_states_from] using hrec
          | succ j =>
              simpa [iter_full_states_from] using hrec

/-- C1: aggregation yields exactly one `(timestamp, snapshot)` pair per
input, in input order; each snapshot is the previous snapshot with every key
mapped to a present value set to that value and every key mapped to `None`
removed (lookup-level law, with the empty state before the first update);
`iter_full_trajectories` aggregates identically (ignoring the frame index);
and on the updates `[{a:1}, {a:None}, {b:2}]` the snapshots are
`{a:1}`, `{}`, `{b:2}` in that order. -/
theorem c1_aggregation (updates : List (Nat × UpdateMapping))
    (hnd : ∀ u ∈ updates, ((u.2.map Prod.fst).Nodup)) :
    ((iter_full_states updates).map Prod.fst = updates.map Prod.fst)
    ∧ (∀ i, i < updates.length → ∀ k,
        slookup ((iter_full_states updates).getD i (0, [])).2 k
          = match List.lookup k ((updates.getD i (0, [])).2) with
            | some v => v
            | none =>
                if i = 0 then none
                else slookup ((iter_full_states updates).getD (i - 1) (0, [])).2 k)
    ∧ (∀ trajUpdates : List (Nat × Nat × UpdateMapping),
        iter_full_trajectories trajUpdates
          = iter_full_states (trajUpdates.map (fun x => (x.1, x.2.2))))
    ∧ iter_full_states
          [(0, [("a", some (Value.scalar 1))]), (1, [("a", none)]),
            (2, [("b", some (Value.scalar 2))])]
        = [(0, [("a", some (Value.scalar 1))]), (1, []),
            (2, [("b", some (Value.scalar 2))])] := by
  refine ⟨iter_full_states_from_map_fst [] updates, ?_, ?_, rfl⟩
  · intro i hi k
    have h := iter_full_states_from_lookup updates [] i ⟨by simp, by simp⟩ hnd hi k
    unfold iter_full_states
    by_cases hi0 : i = 0
    · rw [hi0] at h ⊢
      rw [if_pos rfl] at h ⊢
      cases hlk : List.lookup k ((updates.getD 0 (0, [])).2) with
      | some v => rw [hlk] at h; exact h
      | none =>
          rw [hlk] at h
          rw [h]
          rfl
    · rw [if_neg hi0] at h ⊢
      exact h
  · intro trajUpdates
    exact iter_full_trajectories_from_eq [] trajUpdates

/-- Witness instantiating `c1_aggregation` at the spec's tombstone example. -/
theorem c1_aggregation_witness :
    iter_full_states
        [(0, [("a", some (Value.scalar 1))]), (1, [("a", none)]),
          (2, [("b", some (Value.scalar 2))])]
      = [(0, [("a", some (Value.scalar 1))]), (1, []),
          (2, [("b", some (Value.scalar 2))])] :=
  (c1_aggregation
      [(0, [("a", some (Value.scalar 1))]), (1, [("a", none)]),
        (2, [("b", some (Value.scalar 2))])]
      (by decide)).2.2.2

/-- C9: aggregation never fails on a tombstone for an absent key: one
snapshot is still yielded per update, and applying an update that maps an
absent key to `None` leaves the (tombstone-free) state exactly unchanged. -/
theorem c9_tombstone_absent_key (state : UpdateMapping) (k : String)
    (hnone : ∀ kv ∈ state, kv.2.isSome = true) (habs : k ∉ state.map Prod.fst) :
    (∀ updates : List (Nat × UpdateMapping),
      (iter_full_states updates).length = updates.length)
    ∧ apply_state_update state [(k, none)] = state := by
  constructor
  · intro updates
    have h := iter_full_states_from_map_fst [] updates
    have h2 := congrArg List.length h
    simpa using h2
  · unfold apply_state_update
    have hins : dictUpdate state [(k, none)] = state ++ [(k, none)] := by
      show dictInsert state k none = state ++ [(k, none)]
      unfold dictInsert
      rw [if_neg (fun hc => habs ((any_key_iff state k).1 hc))]
    rw [hins, List.filter_append]
    have h1 : state.filter (fun kv => kv.2.isSome) = state := List.filter_eq_self.2 hnone
    have h2 : ([(k, (none : Option Value))].filter (fun kv => kv.2.isSome)) = [] := rfl
    rw [h1, h2, List.append_nil]

/-- Witness instantiating `c9_tombstone_absent_key` on a one-key state and a
tombstone for a different, absent key. -/
theorem c9_tombstone_absent_key_witness :
    apply_state_update [("a", some (Value.scalar 1))] [("b", none)]
        = [("a", some (Value.scalar 1))]
      ∧ (iter_full_states [(3, [("b", none)])]).length = 1 :=
  ⟨(c9_tombstone_absent_key [("a", some (Value.scalar 1))] "b" (by decide) (by decide)).2,
    (c9_tombstone_absent_key [("a", some (Value.scalar 1))] "b" (by decide)
      (by decide)).1 [(3, [("b", none)])]⟩

/-- C7: for a source recording with a valid header, `copy_header` writes to
the destination a 16-byte header byte-for-byte identical to the source's
first 16 bytes, and `replace_narupa` places exactly those bytes before all
rewritten records in the destination stream. -/
theorem c7_header_copied_verbatim (buffer : List Nat)
    (h : valid_header_bytes (buffer.take 16)) :
    (copy_header ⟨buffer, 0⟩
        = (.ok ⟨MAGIC_NUMBER, leNat (((buffer.take 16).drop 8).take 8)⟩,
            ⟨buffer.take 16 ++ buffer.drop 16, 16⟩, buffer.take 16))
    ∧ (∀ (decode : List Nat → Nat × UpdateMapping) (encode : UpdateMapping → List Nat),
        replace_narupa decode encode ⟨buffer, 0⟩
          = .ok (buffer.take 16
              ++ replace_and_copy_records decode encode ⟨buffer.take 16 ++ buffer.drop 16, 16⟩
                  ⟨MAGIC_NUMBER, leNat (((buffer.take 16).drop 8).take 8)⟩
                  "narupa" "nanover")) := by
  have hsplit : buffer = buffer.take 16 ++ buffer.drop 16 :=
    (List.take_append_drop 16 buffer).symm
  have hrh : read_header ⟨buffer, 0⟩
      = (.ok ⟨MAGIC_NUMBER, leNat (((buffer.take 16).drop 8).take 8)⟩,
          ⟨buffer.take 16 ++ buffer.drop 16, 16⟩) := by
    conv_lhs => rw [hsplit]
    exact read_header_valid _ _ h
  have hch : copy_header ⟨buffer, 0⟩
      = (.ok ⟨MAGIC_NUMBER, leNat (((buffer.take 16).drop 8).take 8)⟩,
          ⟨buffer.take 16 ++ buffer.drop 16, 16⟩, buffer.take 16) := by
    unfold copy_header
    rw [hrh]
    simp only [header_as_bytes_valid (buffer.take 16) h]
  refine ⟨hch, ?_⟩
  intro decode encode
  unfold replace_narupa
  rw [hch]

/-- Witness instantiating `c7_header_copied_verbatim` on a header-only
recording. -/
theorem c7_header_copied_verbatim_witness :
    copy_header ⟨sample_header_bytes, 0⟩
      = (.ok ⟨MAGIC_NUMBER, leNat (((sample_header_bytes.take 16).drop 8).take 8)⟩,
          ⟨sample_header_bytes.take 16 ++ sample_header_bytes.drop 16, 16⟩,
          sample_header_bytes.take 16) :=
  (c7_header_copied_verbatim sample_header_bytes
    (by unfold valid_header_bytes; refine ⟨by decide, by decide, by decide, by decide⟩)).1

/-! ### Rewrite lemmas -/

theorem recursive_replace_items_eq (m : List (String × Value)) (t r : String) :
    recursive_replace_items m t r
      = m.map (fun kv => (py_replace kv.1 t r, recursive_replace kv.2 t r)) := by
  induction m with
  | nil => rfl
  | cons kv rest ih =>
      obtain ⟨a, b⟩ := kv
      simp [recursive_replace_items, ih]

theorem dictUpdate_append_disjoint {β : Type} (l : List (String × β)) :
    ∀ acc : List (String × β), ((l.map Prod.fst).Nodup) →
      (∀ k ∈ l.map Prod.fst, k ∉ acc.map Prod.fst) →
      dictUpdate acc l = acc ++ l := by
  induction l with
  | nil =>
      intro acc _ _
      simp [dictUpdate]
  | cons kv rest ih =>
      intro acc hnd hdisj
      obtain ⟨a, b⟩ := kv
      simp only [List.map_cons, List.nodup_cons] at hnd
      have hstep : dictUpdate acc ((a, b) :: rest) = dictUpdate (dictInsert acc a b) rest := by
        simp [dictUpdate]
      have hins : dictInsert acc a b = acc ++ [(a, b)] := by
        unfold dictInsert
        rw [if_neg (fun hc => (hdisj a (by simp)) ((any_key_iff acc a).1 hc))]
      rw [hstep, hins, ih (acc ++ [(a, b)]) hnd.2 ?_]
      · simp
      · intro k hk
        have h1 : k ∉ acc.map Prod.fst := hdisj k (by simp [hk])
        have h2 : k ≠ a := fun hh => hnd.1 (hh ▸ hk)
        simp [h1, h2]

theorem dictOfList_eq_self {β : Type} (l : List (String × β))
    (h : (l.map Prod.fst).Nodup) : dictOfList l = l := by
  unfold dictOfList
  rw [dictUpdate_append_disjoint l [] h (by simp)]
  simp

/-- The claim of C8 as stated, at the input that refutes it: replacing
`"a"` by `"b"` in the two-key mapping `{a: 1, b: 2}` makes the two renamed
keys collide, so the result is not the structure-preserving per-entry
renaming the claim describes (the first entry is overwritten). -/
theorem c8_counterexample :
    recursive_replace (Value.mapping [("a", Value.scalar 1), ("b", Value.scalar 2)]) "a" "b"
      ≠ Value.mapping ([("a", Value.scalar 1), ("b", Value.scalar 2)].map
          (fun kv => (py_replace kv.1 "a" "b", recursive_replace kv.2 "a" "b"))) := by
  intro h
  have h1 : recursive_replace
      (Value.mapping [("a", Value.scalar 1), ("b", Value.scalar 2)]) "a" "b"
      = Value.mapping [("b", Value.scalar 2)] := rfl
  have h2 : Value.mapping ([("a", Value.scalar 1), ("b", Value.scalar 2)].map
        (fun kv => (py_replace kv.1 "a" "b", recursive_replace kv.2 "a" "b")))
      = Value.mapping [("b", Value.scalar 1), ("b", Value.scalar 2)] := rfl
  rw [h1, h2] at h
  have h3 := congrArg
    (fun v => match v with | Value.mapping l => l.length | Value.scalar _ => 0) h
  simp at h3

/-- C8 (amended): `recursive_replace` returns a non-mapping value unchanged,
and returns a mapping with every key's occurrences of `to_replace` replaced
by `replace_by` and every nested value rewritten recursively — structure and
non-key contents untouched — provided the replacement does not identify two
distinct keys of that mapping (on a collision, the later entry overwrites
the earlier one, last-write-wins). -/
theorem c8_recursive_replace (t r : String) :
    (∀ n : Nat, recursive_replace (Value.scalar n) t r = Value.scalar n)
    ∧ (∀ m : List (String × Value),
        ((m.map (fun kv => py_replace kv.1 t r)).Nodup) →
        recursive_replace (Value.mapping m) t r
          = Value.mapping (m.map
              (fun kv => (py_replace kv.1 t r, recursive_replace kv.2 t r)))) := by
  constructor
  · intro n
    rfl
  · intro m hnd
    show Value.mapping (dictOfList (recursive_replace_items m t r)) = _
    rw [recursive_replace_items_eq, dictOfList_eq_self]
    rw [List.map_map]
    exact hnd

/-- Witness instantiating `c8_recursive_replace` on a nested mapping with
non-colliding renamed keys. -/
theorem c8_recursive_replace_witness :
    recursive_replace (Value.mapping [("narupa.pos", Value.scalar 1),
        ("other", Value.mapping [("narupa.x", Value.scalar 2)])]) "narupa" "nanover"
      = Value.mapping ([("narupa.pos", Value.scalar 1),
          ("other", Value.mapping [("narupa.x", Value.scalar 2)])].map
          (fun kv => (py_replace kv.1 "narupa" "nanover",
            recursive_replace kv.2 "narupa" "nanover"))) :=
  (c8_recursive_replace "narupa" "nanover").2 _ (by decide)

/-- C3: rewriting a recording holding one frame whose payload decodes to
`{"narupa.pos": 1}` with the rule `"narupa" → "nanover"` produces a
destination whose header bytes equal the source's first 16 bytes and whose
single frame carries the same `elapsed` and decodes to `{"nanover.pos": 1}`.
The payload codec is external (spec section 4.4): its behaviour on the two
mappings involved is taken as hypotheses. -/
theorem c3_rewrite_fidelity
    (decode : List Nat → Nat × UpdateMapping) (encode : UpdateMapping → List Nat)
    (hb payload : List Nat) (elapsed fi fi2 : Nat)
    (hh : valid_header_bytes hb)
    (he : elapsed < 2 ^ 128) (hp : payload.length < 2 ^ 64)
    (hdec : decode payload = (fi, [("narupa.pos", some (Value.scalar 1))]))
    (henc : (encode [("nanover.pos", some (Value.scalar 1))]).length < 2 ^ 64)
    (hround : decode (encode [("nanover.pos", some (Value.scalar 1))])
        = (fi2, [("nanover.pos", some (Value.scalar 1))])) :
    (replace_narupa decode encode ⟨hb ++ frame_bytes elapsed payload, 0⟩
        = .ok (hb ++ state_record_as_bytes encode elapsed
            [("nanover.pos", some (Value.scalar 1))]))
    ∧ (hb ++ state_record_as_bytes encode elapsed
          [("nanover.pos", some (Value.scalar 1))]).take 16
        = (hb ++ frame_bytes elapsed payload).take 16
    ∧ iter_traj_updates decode
        ⟨hb ++ state_record_as_bytes encode elapsed
            [("nanover.pos", some (Value.scalar 1))], 16⟩
        ⟨MAGIC_NUMBER, leNat ((hb.drop 8).take 8)⟩
      = [(elapsed, fi2, [("nanover.pos", some (Value.scalar 1))])] := by
  have hrepl : replace_update [("narupa.pos", some (Value.scalar 1))] "narupa" "nanover"
      = [("nanover.pos", some (Value.scalar 1))] := rfl
  have hiter : iter_traj_updates decode ⟨hb ++ frame_bytes elapsed payload, 16⟩
      ⟨MAGIC_NUMBER, leNat ((hb.drop 8).take 8)⟩ = [(elapsed, decode payload)] := by
    unfold iter_traj_updates
    rw [iter_records_drop]
    have hdrop : (hb ++ frame_bytes elapsed payload).drop 16 = frame_bytes elapsed payload := by
      rw [← hh.1, List.drop_left]
    rw [hdrop]
    have hfr : frame_bytes elapsed payload = frame_bytes elapsed payload ++ [] := by simp
    rw [hfr, iter_records_frame decode elapsed payload [] he hp,
      iter_records_nil_u128 decode _ (by rw [unpack_u128_eq, if_neg (by simp)])]
  have hrecords : replace_and_copy_records decode encode
      ⟨hb ++ frame_bytes elapsed payload, 16⟩
      ⟨MAGIC_NUMBER, leNat ((hb.drop 8).take 8)⟩ "narupa" "nanover"
      = state_record_as_bytes encode elapsed [("nanover.pos", some (Value.scalar 1))] := by
    unfold replace_and_copy_records
    rw [hiter]
    simp [hdec, hrepl]
  refine ⟨?_, ?_, ?_⟩
  · have hch : copy_header ⟨hb ++ frame_bytes elapsed payload, 0⟩
        = (.ok ⟨MAGIC_NUMBER, leNat ((hb.drop 8).take 8)⟩,
            ⟨hb ++ frame_bytes elapsed payload, 16⟩, hb) := by
      unfold copy_header
      rw [read_header_valid hb _ hh]
      simp only [header_as_bytes_valid hb hh]
    unfold replace_narupa
    rw [hch]
    simp only [hrecords]
  · conv_lhs => rw [← hh.1, List.take_left]
    conv_rhs => rw [← hh.1, List.take_left]
  · unfold iter_traj_updates
    rw [iter_records_drop]
    have hdrop : (hb ++ state_record_as_bytes encode elapsed
        [("nanover.pos", some (Value.scalar 1))]).drop 16
        = state_record_as_bytes encode elapsed [("nanover.pos", some (Value.scalar 1))] := by
      rw [← hh.1, List.drop_left]
    rw [hdrop]
    have hsr : state_record_as_bytes encode elapsed [("nanover.pos", some (Value.scalar 1))]
        = frame_bytes elapsed (encode [("nanover.pos", some (Value.scalar 1))]) ++ [] := by
      simp [state_record_as_bytes, frame_bytes]
    rw [hsr, iter_records_frame decode elapsed _ [] he henc,
      iter_records_nil_u128 decode _ (by rw [unpack_u128_eq, if_neg (by simp)]),
      hround]

/-- Witness instantiating `c3_rewrite_fidelity` with a concrete two-byte
payload and a toy codec satisfying the codec hypotheses. -/
theorem c3_rewrite_fidelity_witness :
    (replace_narupa
        (fun l => if l.length = 1 then (0, [("nanover.pos", some (Value.scalar 1))])
          else (0, [("narupa.pos", some (Value.scalar 1))]))
        (fun _ => [42]) ⟨sample_header_bytes ++ frame_bytes 5 [1, 2], 0⟩
        = .ok (sample_header_bytes ++ state_record_as_bytes (fun _ => [42]) 5
            [("nanover.pos", some (Value.scalar 1))]))
    ∧ (sample_header_bytes ++ state_record_as_bytes (fun _ => [42]) 5
          [("nanover.pos", some (Value.scalar 1))]).take 16
        = (sample_header_bytes ++ frame_bytes 5 [1, 2]).take 16
    ∧ iter_traj_updates
        (fun l => if l.length = 1 then (0, [("nanover.pos", some (Value.scalar 1))])
          else (0, [("narupa.pos", some (Value.scalar 1))]))
        ⟨sample_header_bytes ++ state_record_as_bytes (fun _ => [42]) 5
            [("nanover.pos", some (Value.scalar 1))], 16⟩
        ⟨MAGIC_NUMBER, leNat ((sample_header_bytes.drop 8).take 8)⟩
      = [(5, 0, [("nanover.pos", some (Value.scalar 1))])] :=
  c3_rewrite_fidelity
    (fun l => if l.length = 1 then (0, [("nanover.pos", some (Value.scalar 1))])
      else (0, [("narupa.pos", some (Value.scalar 1))]))
    (fun _ => [42]) sample_header_bytes [1, 2] 5 0 0
    (by unfold valid_header_bytes; refine ⟨by decide, by decide, by decide, by decide⟩)
    (by norm_num) (by norm_num) rfl (by norm_num) rfl

end StateUtils
